import Mathlib

/-
Verification of the YAML library parser and node model.

The embedding follows src/library/src/parser/default.rs,
src/library/src/nodes/node.rs, src/library/src/io/traits.rs and
src/library/src/io/sources/buffer.rs. A Buffer source yields the bytes of
the input one by one, each cast to a char, so every character seen by the
parser is a code point in 0..255; the character classification functions
below are therefore written out as the restriction of the Rust functions
to that range. The parser state is modelled by the list of characters not
yet consumed; source.next() drops the head of that list. The loops of the
parser are modelled by structurally recursive functions over an explicit
fuel argument; the wrappers supply fuel (input length + 1), which is
enough because every iteration of every loop consumes at least one
character. Machine integers are modelled by Int and Nat with explicit
range checks where the code checks ranges.
-/

/-- Rust char.is_whitespace (Unicode White_Space), restricted to the code
points 0..255 that a Buffer source can produce. This is the whitespace
test the parser actually calls, in skip_whitespace and in the top-level
loop of parse. -/
def rustIsWhitespace (c : Char) : Bool :=
  decide (c.toNat = 9 ∨ c.toNat = 10 ∨ c.toNat = 11 ∨ c.toNat = 12 ∨
    c.toNat = 13 ∨ c.toNat = 32 ∨ c.toNat = 0x85 ∨ c.toNat = 0xA0)

/-- Rust char.is_alphanumeric (Unicode Alphabetic or Nd or Nl or No),
restricted to the code points 0..255 that a Buffer source can produce:
ASCII digits and letters, the Latin-1 letters, ordinal indicators,
micro sign, superscripts and vulgar fractions. -/
def rustIsAlphanumeric (c : Char) : Bool :=
  decide ((48 ≤ c.toNat ∧ c.toNat ≤ 57) ∨ (65 ≤ c.toNat ∧ c.toNat ≤ 90) ∨
    (97 ≤ c.toNat ∧ c.toNat ≤ 122) ∨
    c.toNat = 0xAA ∨ c.toNat = 0xB2 ∨ c.toNat = 0xB3 ∨ c.toNat = 0xB5 ∨
    c.toNat = 0xB9 ∨ c.toNat = 0xBA ∨ c.toNat = 0xBC ∨ c.toNat = 0xBD ∨
    c.toNat = 0xBE ∨ (0xC0 ≤ c.toNat ∧ c.toNat ≤ 0xD6) ∨
    (0xD8 ≤ c.toNat ∧ c.toNat ≤ 0xF6) ∨ (0xF8 ≤ c.toNat ∧ c.toNat ≤ 0xFF))

/-- The default is_whitespace method of the ISource trait
(src/library/src/io/traits.rs). Note that the parser never calls it. -/
def ISource.is_whitespace (c : Char) : Bool :=
  c == ' ' || c == '\t' || c == '\n' || c == '\r'

/-- Rust str.trim on a character list: remove leading and trailing
Unicode whitespace. -/
def rustTrimList (l : List Char) : List Char :=
  ((l.dropWhile rustIsWhitespace).reverse.dropWhile rustIsWhitespace).reverse

/-- Rust str.trim. -/
def rustTrim (s : String) : String :=
  String.mk (rustTrimList s.data)

def isAsciiDigit (c : Char) : Bool :=
  decide (48 ≤ c.toNat ∧ c.toNat ≤ 57)

def digitsVal (l : List Char) : Nat :=
  l.foldl (fun a d => a * 10 + (d.toNat - 48)) 0

/-- Rust str.parse::<i64>(): an optional sign followed by one or more
ASCII digits, whose value must fit in a 64-bit signed integer; every
other string fails. -/
def parseI64 (s : String) : Option Int :=
  let p : Bool × List Char :=
    match s.data with
    | '+' :: rest => (false, rest)
    | '-' :: rest => (true, rest)
    | l => (false, l)
  if p.2.isEmpty then none
  else if p.2.all isAsciiDigit then
    let v : Int := if p.1 then -(digitsVal p.2 : Int) else (digitsVal p.2 : Int)
    if -(2 ^ 63) ≤ v ∧ v ≤ 2 ^ 63 - 1 then some v else none
  else none

/-- Strip one leading sign character, as the f64 grammar allows. -/
def stripSign : List Char → List Char
  | '+' :: rest => rest
  | '-' :: rest => rest
  | l => l

def asciiLower (c : Char) : Char :=
  if 65 ≤ c.toNat ∧ c.toNat ≤ 90 then Char.ofNat (c.toNat + 32) else c

/-- Whether a float literal denotes an IEEE NaN: Rust f64 parsing maps
exactly the strings matching [+-]?nan (ASCII case-insensitive) to NaN. -/
def isNanLit (s : String) : Bool :=
  (stripSign s.data).map asciiLower == "nan".data

/-- The optional exponent part of the Rust f64 grammar:
empty, or (e|E) followed by an optional sign and one or more digits. -/
def expOptOk : List Char → Bool
  | [] => true
  | c :: rest =>
    if c = 'e' ∨ c = 'E' then
      let rest2 := stripSign rest
      !rest2.isEmpty && rest2.all isAsciiDigit
    else false

/-- The Number production of the Rust f64 grammar:
digits [. digits] [exp] or . digits [exp]. -/
def numberFormOk (l : List Char) : Bool :=
  let d1 := l.takeWhile isAsciiDigit
  let r1 := l.dropWhile isAsciiDigit
  if d1.isEmpty then
    match r1 with
    | '.' :: r2 => !(r2.takeWhile isAsciiDigit).isEmpty && expOptOk (r2.dropWhile isAsciiDigit)
    | _ => false
  else
    match r1 with
    | '.' :: r2 => expOptOk (r2.dropWhile isAsciiDigit)
    | _ => expOptOk r1

/-- Rust str.parse::<f64>() succeeds exactly on the strings of this
grammar: [+-]? (inf | infinity | nan | Number), the words ASCII
case-insensitive. Overflow is not an error for f64 (it rounds to an
infinity), so success is a purely lexical matter. -/
def parsesAsF64 (s : String) : Bool :=
  let body := stripSign s.data
  let lower := body.map asciiLower
  lower == "inf".data || lower == "infinity".data || lower == "nan".data ||
    numberFormOk body

/-- The Numeric enum of src/library/src/nodes/node.rs. A Float holds an
f64; here the f64 produced by the parser is represented by the literal
text it was parsed from, which determines it. This development only ever
compares floats that were produced from identical literal text, where
lexical equality coincides with f64 equality except for NaN, which is
handled separately in Numeric.beqFn. The remaining variants are the
narrower conversion-target widths; their payloads are modelled by Int
and Nat. -/
inductive Numeric where
  | Integer (i : Int)
  | Float (lit : String)
  | UInteger (v : Nat)
  | Byte (v : Nat)
  | Int32 (v : Int)
  | UInt32 (v : Nat)
  | Int16 (v : Int)
  | UInt16 (v : Nat)
  | Int8 (v : Int)
deriving Repr, DecidableEq

/-- The Node enum of src/library/src/nodes/node.rs. The backing container
of Dictionary is a HashMap with string keys; it is modelled by an
association list with unique keys, built only through mapInsert, which
overwrites in place like HashMap insert. -/
inductive Node where
  | Boolean (b : Bool)
  | Number (n : Numeric)
  | Str (s : String)
  | Array (items : List Node)
  | Dictionary (entries : List (String × Node))
  | Comment (text : String)
  | Document (docs : List Node)
  | None
deriving Repr

/-- Equality of Numeric values as Rust derive(PartialEq) computes it:
componentwise, with the Float component compared as an f64. Since a
Float payload is represented by its literal text and this development
only compares floats arising from identical text, the f64 comparison is:
false if the literal denotes NaN (IEEE: NaN is not equal to anything,
itself included), otherwise equality of the text. -/
def Numeric.beqFn : Numeric → Numeric → Bool
  | .Integer a, .Integer b => a == b
  | .Float a, .Float b => if isNanLit a || isNanLit b then false else a == b
  | .UInteger a, .UInteger b => a == b
  | .Byte a, .Byte b => a == b
  | .Int32 a, .Int32 b => a == b
  | .UInt32 a, .UInt32 b => a == b
  | .Int16 a, .Int16 b => a == b
  | .UInt16 a, .UInt16 b => a == b
  | .Int8 a, .Int8 b => a == b
  | _, _ => false

mutual

/-- Equality of Node trees as Rust derive(PartialEq) computes it.
Dictionary entries are compared pairwise; the Rust HashMap comparison is
order-insensitive, but every comparison in this development is between
dictionaries built by the same insertion sequence, where the pairwise
comparison coincides with it. -/
def Node.beqFn : Node → Node → Bool
  | .Boolean a, .Boolean b => a == b
  | .Number a, .Number b => Numeric.beqFn a b
  | .Str a, .Str b => a == b
  | .Array a, .Array b => Node.beqListFn a b
  | .Dictionary a, .Dictionary b => Node.beqEntriesFn a b
  | .Comment a, .Comment b => a == b
  | .Document a, .Document b => Node.beqListFn a b
  | .None, .None => true
  | _, _ => false

def Node.beqListFn : List Node → List Node → Bool
  | [], [] => true
  | a :: as, b :: bs => Node.beqFn a b && Node.beqListFn as bs
  | _, _ => false

def Node.beqEntriesFn : List (String × Node) → List (String × Node) → Bool
  | [], [] => true
  | (k1, v1) :: r1, (k2, v2) :: r2 =>
    k1 == k2 && Node.beqFn v1 v2 && Node.beqEntriesFn r1 r2
  | _, _ => false

end

/-- A Numeric value is NaN-free unless it is a Float whose literal
denotes NaN. -/
def Numeric.nanFreeFn : Numeric → Bool
  | .Float lit => !isNanLit lit
  | _ => true

mutual

/-- A Node tree is NaN-free when no Float leaf denotes NaN. -/
def Node.nanFreeFn : Node → Bool
  | .Number n => Numeric.nanFreeFn n
  | .Array a => Node.nanFreeListFn a
  | .Dictionary a => Node.nanFreeEntriesFn a
  | .Document a => Node.nanFreeListFn a
  | _ => true

def Node.nanFreeListFn : List Node → Bool
  | [] => true
  | a :: as => Node.nanFreeFn a && Node.nanFreeListFn as

def Node.nanFreeEntriesFn : List (String × Node) → Bool
  | [] => true
  | (_, v) :: r => Node.nanFreeFn v && Node.nanFreeEntriesFn r

end

/-- Whether a string begins with the character #, as value.starts_with
of parse_scalar tests. -/
def startsWithHash (s : String) : Bool :=
  match s.data with
  | '#' :: _ => true
  | _ => false

/-- parse_scalar of src/library/src/parser/default.rs: classify a scalar
text. Priority order exactly as in the source: leading # makes a
Comment of the rest trimmed; null and ~ make None; true and false make
Booleans; text parsing as i64 makes Number(Integer); text parsing as
f64 makes Number(Float); anything else is Str verbatim. -/
def parse_scalar (value : String) : Node :=
  if startsWithHash value then
    Node.Comment (rustTrim (String.mk (value.data.drop 1)))
  else if value = "null" ∨ value = "~" then Node.None
  else if value = "true" then Node.Boolean true
  else if value = "false" then Node.Boolean false
  else
    match parseI64 value with
    | some i => Node.Number (Numeric.Integer i)
    | none =>
      if parsesAsF64 value then Node.Number (Numeric.Float value)
      else Node.Str value

/-- Collect characters until the predicate holds; return the collected
prefix and the remainder, the breaking character still at its head.
This is the shape of every read-until loop in the parser (they test
source.current() and break without consuming the breaking character). -/
def takeUntil (p : Char → Bool) : List Char → List Char × List Char
  | [] => ([], [])
  | c :: rest =>
    if p c then ([], c :: rest)
    else
      let r := takeUntil p rest
      (c :: r.1, r.2)

/-- HashMap::insert on the association-list model: overwrite in place if
the key is present, otherwise append. Keeps keys unique. -/
def mapInsert (k : String) (v : Node) : List (String × Node) → List (String × Node)
  | [] => [(k, v)]
  | (k1, v1) :: rest =>
    if k1 = k then (k, v) :: rest else (k1, v1) :: mapInsert k v rest

/-- HashMap lookup on the association-list model. -/
def lookupKey (k : String) : List (String × Node) → Option Node
  | [] => none
  | (k1, v1) :: rest => if k1 = k then some v1 else lookupKey k rest

def keysOf (entries : List (String × Node)) : List String :=
  entries.map Prod.fst

/-- The loop of parse_sequence, with fuel. Per iteration: a # line is
read up to the newline and pushed as a Comment; a - item skips
whitespace then reads up to a newline or #, trims, and classifies with
parse_scalar; any other character breaks out without being consumed.
After the # and - branches the trailing source.next() of the loop body
consumes the breaking character. Each iteration consumes at least one
character, so the wrapper fuel of length + 1 never runs out. -/
def parse_sequenceF : Nat → List Char → List Node × List Char
  | 0, l => ([], l)
  | _ + 1, [] => ([], [])
  | fuel + 1, c :: rest =>
    if c = '#' then
      let t := takeUntil (fun d => d = '\n') rest
      let r := parse_sequenceF fuel (t.2.drop 1)
      (Node.Comment (rustTrim (String.mk t.1)) :: r.1, r.2)
    else if c = '-' then
      let afterWs := rest.dropWhile rustIsWhitespace
      let t := takeUntil (fun d => d = '\n' ∨ d = '#') afterWs
      let r := parse_sequenceF fuel (t.2.drop 1)
      (parse_scalar (rustTrim (String.mk t.1)) :: r.1, r.2)
    else ([], c :: rest)

/-- parse_sequence of src/library/src/parser/default.rs. The source
returns Result but has no error path; the items and the unconsumed
remainder of the input are returned. -/
def parse_sequence (l : List Char) : List Node × List Char :=
  parse_sequenceF (l.length + 1) l

/-- The loop of parse_mapping, with fuel and the map accumulator. Per
iteration: a # line is inserted as a Comment under the synthetic key
__comment_n where n is the current number of entries; an alphanumeric
character starts a key read up to a colon, the colon is skipped,
whitespace is skipped, the value is read up to a newline or #, and the
trimmed key is bound to the classified trimmed value; any other
character is consumed with no effect. The loop only ends at
end-of-input, so the whole remaining input is consumed. -/
def parse_mappingF : Nat → List Char → List (String × Node) → List (String × Node)
  | 0, _, m => m
  | _ + 1, [], m => m
  | fuel + 1, c :: rest, m =>
    if c = '#' then
      let t := takeUntil (fun d => d = '\n') rest
      parse_mappingF fuel (t.2.drop 1)
        (mapInsert (String.append "__comment_" (toString m.length))
          (Node.Comment (rustTrim (String.mk t.1))) m)
    else if rustIsAlphanumeric c then
      let tk := takeUntil (fun d => d = ':') (c :: rest)
      let afterWs := (tk.2.drop 1).dropWhile rustIsWhitespace
      let tv := takeUntil (fun d => d = '\n' ∨ d = '#') afterWs
      parse_mappingF fuel (tv.2.drop 1)
        (mapInsert (rustTrim (String.mk tk.1))
          (parse_scalar (rustTrim (String.mk tv.1))) m)
    else
      parse_mappingF fuel rest m

/-- parse_mapping of src/library/src/parser/default.rs. The source
returns Result but has no error path; it consumes all remaining input. -/
def parse_mapping (l : List Char) : List (String × Node) :=
  parse_mappingF (l.length + 1) l []

/-- documents.push(current_doc) when a current document exists. -/
def pushCur (docs : List Node) : Option Node → List Node
  | none => docs
  | some d => docs ++ [d]

/-- The final dispatch of parse on the accumulated documents: none makes
None, exactly one is returned unwrapped, two or more are wrapped in a
Document. -/
def finishDocs : List Node → Except String Node
  | [] => Except.ok Node.None
  | [d] => Except.ok d
  | ds => Except.ok (Node.Document ds)

/-- The top-level loop of parse, with fuel. The match arms in source
order: a - while documents is empty or there is no current document
parses a sequence; a # reads a comment line (not consuming the
newline), pushing any current document; any other - is taken as a
separator and three characters are consumed; an alphanumeric character
parses a mapping, which consumes all remaining input; whitespace is
skipped; anything else is the UnexpectedCharacter error. Each
iteration consumes at least one character, so the wrapper fuel of
length + 1 never runs out. -/
def parse_loopF : Nat → List Char → List Node → Option Node → Except String Node
  | 0, _, docs, cur => finishDocs (pushCur docs cur)
  | _ + 1, [], docs, cur => finishDocs (pushCur docs cur)
  | fuel + 1, c :: rest, docs, cur =>
    if c = '-' ∧ (docs.isEmpty = true ∨ cur.isNone = true) then
      let r := parse_sequence (c :: rest)
      parse_loopF fuel r.2 docs (some (Node.Array r.1))
    else if c = '#' then
      let t := takeUntil (fun d => d = '\n') rest
      parse_loopF fuel t.2 (pushCur docs cur)
        (some (Node.Comment (rustTrim (String.mk t.1))))
    else if c = '-' then
      parse_loopF fuel ((c :: rest).drop 3) (pushCur docs cur) none
    else if rustIsAlphanumeric c then
      parse_loopF fuel [] docs (some (Node.Dictionary (parse_mapping (c :: rest))))
    else if rustIsWhitespace c then
      parse_loopF fuel rest docs cur
    else
      Except.error (String.append "Unexpected character: " c.toString)

/-- parse of src/library/src/parser/default.rs: skip leading whitespace,
run the top-level loop, and dispatch on the accumulated documents. -/
def parse (l : List Char) : Except String Node :=
  let l2 := l.dropWhile rustIsWhitespace
  parse_loopF (l2.length + 1) l2 [] none

/-- The Buffer source of src/library/src/io/sources/buffer.rs: the bytes
(as characters) and a cursor position. -/
structure Buffer where
  buffer : List Char
  position : Nat

/-- Buffer::new. -/
def Buffer.new (toAdd : List Char) : Buffer :=
  { buffer := toAdd, position := 0 }

/-- ISource::more for Buffer. -/
def Buffer.more (b : Buffer) : Bool :=
  b.position < b.buffer.length

/-- ISource::current for Buffer: the character at the cursor when more
remain, none otherwise. -/
def Buffer.current (b : Buffer) : Option Char :=
  b.buffer.get? b.position

/-- ISource::next for Buffer. -/
def Buffer.next (b : Buffer) : Buffer :=
  { b with position := b.position + 1 }

/-- ISource::reset for Buffer. -/
def Buffer.reset (b : Buffer) : Buffer :=
  { b with position := 0 }

/-- The characters a Buffer has not yet yielded. The parser reads a
source only through current and next, so this suffix determines the
parse result. -/
def Buffer.remaining (b : Buffer) : List Char :=
  b.buffer.drop b.position

/-- Running the parser over a Buffer source. -/
def parseBuffer (b : Buffer) : Except String Node :=
  parse b.remaining

/-- The Index<usize> impl for Node: valid only on Array with the index in
bounds; none models the panic of every other case. -/
def Node.indexNat : Node → Nat → Option Node
  | Node.Array items, i => items.get? i
  | _, _ => none

/-- The Index<&str> impl for Node: valid only on Dictionary with a
present key; none models the panic of every other case. -/
def Node.indexStr : Node → String → Option Node
  | Node.Dictionary entries, k => lookupKey k entries
  | _, _ => none

/-- The IndexMut<usize> impl for Node, as the whole-node result of
assigning through it; none models the panic cases. -/
def Node.indexMutNat : Node → Nat → Node → Option Node
  | Node.Array items, i, v =>
    if i < items.length then some (Node.Array (items.set i v)) else none
  | _, _, _ => none

/-- The IndexMut<&str> impl for Node, as the whole-node result of
assigning through it. get_mut only succeeds on a present key, so an
absent key is a panic (none), and the present key has its value
replaced in place. -/
def Node.indexMutStr : Node → String → Node → Option Node
  | Node.Dictionary entries, k, v =>
    if (lookupKey k entries).isSome then
      some (Node.Dictionary (mapInsert k v entries))
    else none
  | _, _, _ => none

/-- A character on which the top-level loop of parse can only take the
error arm: not -, not #, not alphanumeric, not whitespace. -/
def badTopChar (c : Char) : Prop :=
  c ≠ '-' ∧ c ≠ '#' ∧ rustIsAlphanumeric c = false ∧ rustIsWhitespace c = false

theorem finishDocs_ne_error : ∀ (ds : List Node) (e : String), finishDocs ds ≠ Except.error e := by
  intro ds e
  cases ds with
  | nil => simp [finishDocs]
  | cons d tl => cases tl <;> simp [finishDocs]

theorem parse_loopF_error_shape :
    ∀ (fuel : Nat) (l : List Char) (docs : List Node) (cur : Option Node) (e : String),
      parse_loopF fuel l docs cur = Except.error e →
      ∃ c, badTopChar c ∧ e = String.append "Unexpected character: " c.toString := by
  intro fuel
  induction fuel with
  | zero => intro l docs cur e h; exact absurd h (finishDocs_ne_error _ _)
  | succ fuel ih =>
    intro l docs cur e h
    cases l with
    | nil => exact absurd h (finishDocs_ne_error _ _)
    | cons c rest =>
      simp only [parse_loopF] at h
      split_ifs at h with h1 h2 h3 h4 h5
      · exact ih _ _ _ _ h
      · exact ih _ _ _ _ h
      · exact ih _ _ _ _ h
      · exact ih _ _ _ _ h
      · exact ih _ _ _ _ h
      · refine ⟨c, ⟨h3, h2, by simpa using h4, by simpa using h5⟩, ?_⟩
        injection h with h
        exact h.symm

theorem finish_pushCur_no_document :
    ∀ (cur : Option Node), (∀ ds, cur ≠ some (Node.Document ds)) →
      ∀ ds, finishDocs (pushCur [] cur) ≠ Except.ok (Node.Document ds) := by
  intro cur hcur ds h
  cases cur with
  | none => simp [pushCur, finishDocs] at h
  | some d =>
    apply hcur ds
    simp [pushCur, finishDocs] at h
    rw [h]

theorem parse_loopF_no_document_of_no_dash_hash :
    ∀ (fuel : Nat) (l : List Char) (cur : Option Node),
      '-' ∉ l → '#' ∉ l → (∀ ds, cur ≠ some (Node.Document ds)) →
      ∀ ds, parse_loopF fuel l [] cur ≠ Except.ok (Node.Document ds) := by
  intro fuel
  induction fuel with
  | zero => intro l cur _ _ hcur; exact finish_pushCur_no_document cur hcur
  | succ fuel ih =>
    intro l cur h1 h2 hcur
    cases l with
    | nil => exact finish_pushCur_no_document cur hcur
    | cons c rest =>
      have hc1 : c ≠ '-' := fun h => h1 (h ▸ List.mem_cons_self c rest)
      have hc2 : c ≠ '#' := fun h => h2 (h ▸ List.mem_cons_self c rest)
      have hr1 : '-' ∉ rest := fun h => h1 (List.mem_cons_of_mem c h)
      have hr2 : '#' ∉ rest := fun h => h2 (List.mem_cons_of_mem c h)
      intro ds
      simp only [parse_loopF]
      rw [if_neg (fun h => hc1 h.1), if_neg hc2, if_neg hc1]
      by_cases h4 : rustIsAlphanumeric c = true
      · rw [if_pos h4]
        exact ih [] _ (List.not_mem_nil _) (List.not_mem_nil _) (fun ds2 h => by simp at h) ds
      · rw [if_neg h4]
        by_cases h5 : rustIsWhitespace c = true
        · rw [if_pos h5]
          exact ih rest cur hr1 hr2 hcur ds
        · rw [if_neg h5]
          simp

theorem lookupKey_mapInsert_self :
    ∀ (m : List (String × Node)) (k : String) (v : Node),
      lookupKey k (mapInsert k v m) = some v := by
  intro m k v
  induction m with
  | nil => simp [mapInsert, lookupKey]
  | cons hd tl ih =>
    obtain ⟨k1, v1⟩ := hd
    by_cases h : k1 = k <;> simp [mapInsert, lookupKey, h, ih]

theorem keysOf_mapInsert :
    ∀ (m : List (String × Node)) (k : String) (v : Node),
      keysOf (mapInsert k v m) =
        if k ∈ keysOf m then keysOf m else keysOf m ++ [k] := by
  intro m k v
  induction m with
  | nil => simp [mapInsert, keysOf]
  | cons hd tl ih =>
    obtain ⟨k1, v1⟩ := hd
    by_cases h : k1 = k
    · subst h
      simp [mapInsert, keysOf]
    · simp only [mapInsert, if_neg h, keysOf, List.map_cons] at ih ⊢
      rw [ih]
      by_cases hmem : k ∈ List.map Prod.fst tl
      · simp [hmem, Ne.symm h]
      · simp [hmem, Ne.symm h]

theorem nodup_keysOf_mapInsert :
    ∀ (m : List (String × Node)) (k : String) (v : Node),
      (keysOf m).Nodup → (keysOf (mapInsert k v m)).Nodup := by
  intro m k v h
  rw [keysOf_mapInsert]
  split_ifs with hmem
  · exact h
  · rw [List.nodup_append]
    exact ⟨h, List.nodup_singleton k, fun a ha hb => hmem (by simpa using (by simpa using hb : a = k) ▸ ha)⟩

theorem parse_mappingF_keys_nodup :
    ∀ (fuel : Nat) (l : List Char) (m : List (String × Node)),
      (keysOf m).Nodup → (keysOf (parse_mappingF fuel l m)).Nodup := by
  intro fuel
  induction fuel with
  | zero => intro l m h; exact h
  | succ fuel ih =>
    intro l m h
    cases l with
    | nil => exact h
    | cons c rest =>
      simp only [parse_mappingF]
      split_ifs with h1 h2
      · exact ih _ _ (nodup_keysOf_mapInsert _ _ _ h)
      · exact ih _ _ (nodup_keysOf_mapInsert _ _ _ h)
      · exact ih _ _ h

mutual

theorem Node.beqFn_refl : ∀ n : Node, Node.nanFreeFn n = true → Node.beqFn n n = true
  | .Boolean b, _ => by simp [Node.beqFn]
  | .Number m, h => by
    cases m <;> simp_all [Node.beqFn, Numeric.beqFn, Node.nanFreeFn, Numeric.nanFreeFn]
  | .Str s, _ => by simp [Node.beqFn]
  | .Array a, h => by
    simp only [Node.beqFn]
    exact Node.beqListFn_refl a (by simpa [Node.nanFreeFn] using h)
  | .Dictionary a, h => by
    simp only [Node.beqFn]
    exact Node.beqEntriesFn_refl a (by simpa [Node.nanFreeFn] using h)
  | .Comment s, _ => by simp [Node.beqFn]
  | .Document a, h => by
    simp only [Node.beqFn]
    exact Node.beqListFn_refl a (by simpa [Node.nanFreeFn] using h)
  | .None, _ => rfl

theorem Node.beqListFn_refl :
    ∀ l : List Node, Node.nanFreeListFn l = true → Node.beqListFn l l = true
  | [], _ => rfl
  | a :: as, h => by
    simp only [Node.nanFreeListFn, Bool.and_eq_true] at h
    simp only [Node.beqListFn, Bool.and_eq_true]
    exact ⟨Node.beqFn_refl a h.1, Node.beqListFn_refl as h.2⟩

theorem Node.beqEntriesFn_refl :
    ∀ l : List (String × Node), Node.nanFreeEntriesFn l = true → Node.beqEntriesFn l l = true
  | [], _ => rfl
  | (k, v) :: r, h => by
    simp only [Node.nanFreeEntriesFn, Bool.and_eq_true] at h
    simp only [Node.beqEntriesFn, Bool.and_eq_true]
    exact ⟨⟨beq_self_eq_true k, Node.beqFn_refl v h.1⟩, Node.beqEntriesFn_refl r h.2⟩

end

/-- C1 counterexample: the claim is false on the code in both directions.
The input with first significant character # (which is neither - nor
alphanumeric nor end-of-input) parses successfully instead of failing,
and the input whose first significant character is the allowed - still
fails mid-document with UnexpectedCharacter once the sequence has been
parsed and an unexpected character follows it. -/
theorem C1_counterexample :
    ('#' ≠ '-' ∧ rustIsAlphanumeric '#' = false)
    ∧ parse (String.toList "#c") = Except.ok (Node.Comment "c")
    ∧ parse (String.toList "- 1\n@") = Except.error "Unexpected character: @" :=
  ⟨⟨by decide, by decide⟩, rfl, rfl⟩

/-- C1 amended: parse fails with UnexpectedCharacter(c) exactly when the
top-level loop reaches a character c that is none of -, #, alphanumeric
or whitespace. In particular, if the first significant character of the
document is such a character the parse fails on it, every failure is of
this shape, and the input with first character the at sign fails with
UnexpectedCharacter of the at sign. Such a character can also be
reached after a top-level sequence, so mid-document failures are
possible (see the C1 counterexample). -/
theorem C1_amended_error_characterization :
    (∀ (l : List Char) (c : Char) (rest : List Char),
        l.dropWhile rustIsWhitespace = c :: rest → badTopChar c →
        parse l = Except.error (String.append "Unexpected character: " c.toString))
    ∧ (∀ (l : List Char) (e : String),
        parse l = Except.error e →
        ∃ c, badTopChar c ∧ e = String.append "Unexpected character: " c.toString)
    ∧ parse (String.toList "@invalid") = Except.error "Unexpected character: @" := by
  refine ⟨?_, ?_, rfl⟩
  · intro l c rest hdrop hbad
    obtain ⟨h1, h2, h3, h4⟩ := hbad
    simp only [parse, hdrop]
    simp only [parse_loopF]
    rw [if_neg (fun h => h1 h.1), if_neg h2, if_neg h1, if_neg (by simp [h3]), if_neg (by simp [h4])]
  · intro l e h
    simp only [parse] at h
    exact parse_loopF_error_shape _ _ _ _ _ h

/-- C1 witness: a concrete bad first character, the percent sign, makes
parse fail with UnexpectedCharacter of that character. -/
theorem C1_witness :
    parse (String.toList "%x") = Except.error (String.append "Unexpected character: " '%'.toString) :=
  C1_amended_error_characterization.1 (String.toList "%x") '%' ['x'] rfl
    ⟨by decide, by decide, by decide, by decide⟩

/-- C2 counterexample: the scalar classifier is not the claimed five-case
function. The trimmed text starting with a hash character is classified
as a Comment with the hash stripped and the remainder trimmed, not as
the claimed verbatim Str. -/
theorem C2_counterexample :
    parse_scalar "#x" = Node.Comment "x" ∧ Node.Comment "x" ≠ Node.Str "#x" :=
  ⟨rfl, fun h => Node.noConfusion h⟩

/-- C2 amended: the scalar classifier is total and deterministic (it is a
function) and follows a six-case priority: text starting with a hash
character yields a Comment of the rest trimmed; then null or ~ yields
None; true and false yield Booleans; text parsing as a 64-bit signed
integer yields Number(Integer); text parsing as a 64-bit float yields
Number(Float); any other text yields Str verbatim. A Comment arises only
from a leading hash, and the classifier never produces the narrower
numeric variants (Int32, Byte and the rest). -/
theorem C2_amended_classifier :
    (parse_scalar "null" = Node.None ∧ parse_scalar "~" = Node.None ∧
      parse_scalar "true" = Node.Boolean true ∧ parse_scalar "false" = Node.Boolean false)
    ∧ (∀ s : String, startsWithHash s = true →
        parse_scalar s = Node.Comment (rustTrim (String.mk (s.data.drop 1))))
    ∧ (∀ (s : String) (i : Int), startsWithHash s = false → ¬(s = "null" ∨ s = "~") →
        s ≠ "true" → s ≠ "false" → parseI64 s = some i →
        parse_scalar s = Node.Number (Numeric.Integer i))
    ∧ (∀ s : String, startsWithHash s = false → ¬(s = "null" ∨ s = "~") →
        s ≠ "true" → s ≠ "false" → parseI64 s = none → parsesAsF64 s = true →
        parse_scalar s = Node.Number (Numeric.Float s))
    ∧ (∀ s : String, startsWithHash s = false → ¬(s = "null" ∨ s = "~") →
        s ≠ "true" → s ≠ "false" → parseI64 s = none → parsesAsF64 s = false →
        parse_scalar s = Node.Str s)
    ∧ (∀ (s t : String), parse_scalar s = Node.Comment t → startsWithHash s = true)
    ∧ (∀ (s : String) (n : Numeric), parse_scalar s = Node.Number n →
        (∃ i, n = Numeric.Integer i) ∨ (∃ lit, n = Numeric.Float lit)) := by
  refine ⟨⟨rfl, rfl, rfl, rfl⟩, ?_, ?_, ?_, ?_, ?_, ?_⟩
  · intro s h
    simp [parse_scalar, h]
  · intro s i h1 h2 h3 h4 h5
    simp [parse_scalar, h1, h2, h3, h4, h5]
  · intro s h1 h2 h3 h4 h5 h6
    simp [parse_scalar, h1, h2, h3, h4, h5, h6]
  · intro s h1 h2 h3 h4 h5 h6
    simp [parse_scalar, h1, h2, h3, h4, h5, h6]
  · intro s t h
    cases hsw : startsWithHash s
    · rw [parse_scalar] at h
      simp only [hsw, Bool.false_eq_true, if_false] at h
      split_ifs at h <;>
        first
          | exact Node.noConfusion h
          | (split at h <;> exact Node.noConfusion h)
    · rfl
  · intro s n h
    rw [parse_scalar] at h
    split_ifs at h <;>
      first
        | exact Node.noConfusion h
        | (split at h <;>
            first
              | exact Node.noConfusion h
              | (injection h with h
                 first
                   | exact Or.inl ⟨_, h.symm⟩
                   | exact Or.inr ⟨_, h.symm⟩))

/-- C2 witness: the integer case of the amended classifier at the
concrete trimmed text 12. -/
theorem C2_witness : parse_scalar "12" = Node.Number (Numeric.Integer 12) :=
  C2_amended_classifier.2.2.1 "12" 12 rfl (by decide) (by decide) (by decide) rfl

/-- C3 counterexample: an input containing no dash at all, hence no ---
separator, still produces a Document: two top-level comment lines
accumulate as two documents. -/
theorem C3_counterexample :
    parse (String.toList "# a\n# b")
        = Except.ok (Node.Document [Node.Comment "a", Node.Comment "b"])
    ∧ '-' ∉ String.toList "# a\n# b" :=
  ⟨rfl, by decide⟩

/-- C3 amended: parse returns a Document node only when at least two
top-level documents accumulate; besides ----delimited documents,
top-level # comment lines also delimit documents, so an input with no
--- can produce a Document. An input containing neither a dash nor a
hash character never produces a Document. -/
theorem C3_amended_no_document :
    ∀ (l : List Char), '-' ∉ l → '#' ∉ l →
      ∀ ds, parse l ≠ Except.ok (Node.Document ds) := by
  intro l h1 h2 ds
  simp only [parse]
  apply parse_loopF_no_document_of_no_dash_hash
  · intro h; exact h1 ((List.dropWhile_sublist _).mem h)
  · intro h; exact h2 ((List.dropWhile_sublist _).mem h)
  · intro ds2 h; exact Option.noConfusion h

/-- C3 witness: a concrete dash-free, hash-free mapping input does not
produce a Document. -/
theorem C3_witness :
    parse (String.toList "k: v") ≠ Except.ok (Node.Document []) :=
  C3_amended_no_document (String.toList "k: v") (by decide) (by decide) []

/-- C4 counterexample: a parsed tree containing the float NaN is not
structurally equal to itself under Node equality (the derived
PartialEq), because an IEEE NaN is not equal to itself. Parsing the
same input twice yields this same tree twice, and the two trees are
not equal. -/
theorem C4_counterexample :
    parse (String.toList "- nan")
        = Except.ok (Node.Array [Node.Number (Numeric.Float "nan")])
    ∧ Node.beqFn (Node.Array [Node.Number (Numeric.Float "nan")])
        (Node.Array [Node.Number (Numeric.Float "nan")]) = false :=
  ⟨rfl, rfl⟩

/-- C4 amended: parsing the same bytes through two independently reset
Buffer sources (or a fresh one) yields identical trees, and identical
trees are structurally equal under Node equality whenever they are free
of NaN floats; a tree containing a NaN float is not equal to itself
(see the C4 counterexample). -/
theorem C4_amended_idempotence :
    (∀ (data : List Char) (p q : Nat),
        parseBuffer ((Buffer.mk data p).reset) = parseBuffer ((Buffer.mk data q).reset)
        ∧ parseBuffer ((Buffer.mk data p).reset) = parseBuffer (Buffer.new data))
    ∧ (∀ n : Node, Node.nanFreeFn n = true → Node.beqFn n n = true) :=
  ⟨fun _ _ _ => ⟨rfl, rfl⟩, Node.beqFn_refl⟩

/-- C4 witness: the amended equality at a concrete NaN-free tree. -/
theorem C4_witness :
    Node.beqFn (Node.Array [Node.Str "x"]) (Node.Array [Node.Str "x"]) = true :=
  C4_amended_idempotence.2 (Node.Array [Node.Str "x"]) rfl

/-- C5 counterexample: the vertical tab is outside the claimed whitespace
set of the ISource default, yet the parser skips it as whitespace: an
input of a single vertical tab parses to None, while a genuinely
non-whitespace non-special character such as the at sign makes parse
fail. -/
theorem C5_counterexample :
    ISource.is_whitespace '\x0B' = false
    ∧ parse ['\x0B'] = Except.ok Node.None
    ∧ parse ['@'] = Except.error "Unexpected character: @" :=
  ⟨rfl, rfl, rfl⟩

/-- C5 amended: the whitespace test the parser uses is the Rust Unicode
one, not the ISource default set. On the byte range a Buffer yields it
accepts tab, newline, vertical tab, form feed, carriage return, space,
next line and no-break space, a strict superset of the ISource set
(space, tab, newline, carriage return). A single character is skipped
at top level exactly when the Unicode test accepts it: it then parses
to None, and otherwise (unless it is a dash, hash or alphanumeric) it
is the unexpected-character failure. -/
theorem C5_amended_whitespace :
    (∀ c : Char, ISource.is_whitespace c = true → rustIsWhitespace c = true)
    ∧ (∀ c : Char, rustIsWhitespace c = true → parse [c] = Except.ok Node.None)
    ∧ (∀ c : Char, c ≠ '-' → c ≠ '#' → rustIsAlphanumeric c = false →
        rustIsWhitespace c = false →
        parse [c] = Except.error (String.append "Unexpected character: " c.toString)) := by
  refine ⟨?_, ?_, ?_⟩
  · intro c h
    simp only [ISource.is_whitespace, Bool.or_eq_true, beq_iff_eq] at h
    rcases h with ((rfl | rfl) | rfl) | rfl <;> rfl
  · intro c h
    simp [parse, List.dropWhile_cons, h, parse_loopF, pushCur, finishDocs]
  · intro c h1 h2 h3 h4
    simp only [parse, List.dropWhile_cons, h4, Bool.false_eq_true, if_false,
      List.dropWhile_nil, List.length_cons, List.length_nil]
    simp only [parse_loopF]
    rw [if_neg (fun h => h1 h.1), if_neg h2, if_neg h1, if_neg (by simp [h3]), if_neg (by simp [h4])]

/-- C5 witness: the form feed character is accepted by the Unicode
whitespace test, hence skipped, so it parses to None. -/
theorem C5_witness : parse ['\x0C'] = Except.ok Node.None :=
  C5_amended_whitespace.2.1 '\x0C' rfl

/-- C6: indexing laws of the Index and IndexMut impls for Node. On an
Array with an index in bounds, indexing returns the element at that
position; integer-indexing any non-Array node, string-indexing any
non-Dictionary node, and string-indexing a Dictionary at an absent key
all fail fast (the panic is modelled by none), for both the immutable
and the mutable impls; the in-bounds mutable cases replace the
addressed element. -/
theorem C6_indexing_laws :
    (∀ (items : List Node) (i : Nat) (h : i < items.length),
        Node.indexNat (Node.Array items) i = some (items.get ⟨i, h⟩))
    ∧ (∀ (n : Node) (i : Nat), (∀ items, n ≠ Node.Array items) →
        Node.indexNat n i = none)
    ∧ (∀ (n : Node) (k : String), (∀ entries, n ≠ Node.Dictionary entries) →
        Node.indexStr n k = none)
    ∧ (∀ (entries : List (String × Node)) (k : String),
        lookupKey k entries = none → Node.indexStr (Node.Dictionary entries) k = none)
    ∧ (∀ (items : List Node) (i : Nat) (v : Node), i < items.length →
        Node.indexMutNat (Node.Array items) i v = some (Node.Array (items.set i v)))
    ∧ (∀ (n : Node) (i : Nat) (v : Node), (∀ items, n ≠ Node.Array items) →
        Node.indexMutNat n i v = none)
    ∧ (∀ (entries : List (String × Node)) (k : String) (v : Node),
        lookupKey k entries = none →
        Node.indexMutStr (Node.Dictionary entries) k v = none)
    ∧ (∀ (n : Node) (k : String) (v : Node), (∀ entries, n ≠ Node.Dictionary entries) →
        Node.indexMutStr n k v = none) := by
  refine ⟨?_, ?_, ?_, ?_, ?_, ?_, ?_, ?_⟩
  · intro items i h
    simp [Node.indexNat, List.get?_eq_get h]
  · intro n i h
    cases n <;> first | rfl | exact absurd rfl (h _)
  · intro n k h
    cases n <;> first | rfl | exact absurd rfl (h _)
  · intro entries k h
    simp [Node.indexStr, h]
  · intro items i v h
    simp [Node.indexMutNat, h]
  · intro n i v h
    cases n <;> first | rfl | exact absurd rfl (h _)
  · intro entries k v h
    simp [Node.indexMutStr, h]
  · intro n k v h
    cases n <;> first | rfl | exact absurd rfl (h _)

/-- C6 witness: integer-indexing a Boolean node fails fast. -/
theorem C6_witness : Node.indexNat (Node.Boolean true) 0 = none :=
  C6_indexing_laws.2.1 (Node.Boolean true) 0 (fun _ h => Node.noConfusion h)

/-- C7: duplicate keys overwrite. Inserting a key into the backing map
makes the later value the one bound to that key; the keys of any map
built by mapping parsing are unique; and on the concrete input binding
the key a on two lines, the resulting Dictionary binds a to the value
of the last line. -/
theorem C7_last_write_wins :
    (∀ (m : List (String × Node)) (k : String) (v : Node),
        lookupKey k (mapInsert k v m) = some v)
    ∧ (∀ (fuel : Nat) (l : List Char) (m : List (String × Node)),
        (keysOf m).Nodup → (keysOf (parse_mappingF fuel l m)).Nodup)
    ∧ (∀ l : List Char, (keysOf (parse_mapping l)).Nodup)
    ∧ parse (String.toList "a: 1\na: 2")
        = Except.ok (Node.Dictionary [("a", Node.Number (Numeric.Integer 2))]) := by
  refine ⟨lookupKey_mapInsert_self, parse_mappingF_keys_nodup, ?_, rfl⟩
  intro l
  exact parse_mappingF_keys_nodup _ _ [] (by simp [keysOf])

/-- C7 witness: the key-uniqueness part at a concrete mapping state. -/
theorem C7_witness :
    (keysOf (parse_mappingF 5 (String.toList "a: 1") [("b", Node.None)])).Nodup :=
  C7_last_write_wins.2.1 5 (String.toList "a: 1") [("b", Node.None)] (by simp [keysOf])

/-- C8: the empty input parses to None, and so does any input consisting
only of whitespace characters, never an error. -/
theorem C8_empty_and_whitespace :
    parse [] = Except.ok Node.None
    ∧ ∀ (l : List Char), (∀ c ∈ l, rustIsWhitespace c = true) →
        parse l = Except.ok Node.None := by
  refine ⟨rfl, ?_⟩
  intro l h
  have hd : l.dropWhile rustIsWhitespace = [] := List.dropWhile_eq_nil_iff.mpr h
  simp [parse, hd, parse_loopF, pushCur, finishDocs]

/-- C8 witness: a concrete whitespace-only input parses to None. -/
theorem C8_witness : parse (String.toList " \t\n\r") = Except.ok Node.None :=
  C8_empty_and_whitespace.2 (String.toList " \t\n\r") (by decide)

/-- C9: inside mapping parsing a line beginning with a hash becomes an
ordinary Dictionary entry: a Comment node under the synthetic key
__comment_n with n the number of entries already in the map at that
moment (here 1 and then 2), reachable through string indexing and
overwritable through mutable string indexing. -/
theorem C9_mapping_comment_entries :
    parse (String.toList "a: 1\n# x\n# y\nb: 2")
        = Except.ok (Node.Dictionary
            [("a", Node.Number (Numeric.Integer 1)),
             ("__comment_1", Node.Comment "x"),
             ("__comment_2", Node.Comment "y"),
             ("b", Node.Number (Numeric.Integer 2))])
    ∧ Node.indexStr (Node.Dictionary
            [("a", Node.Number (Numeric.Integer 1)),
             ("__comment_1", Node.Comment "x"),
             ("__comment_2", Node.Comment "y"),
             ("b", Node.Number (Numeric.Integer 2))]) "__comment_1"
        = some (Node.Comment "x")
    ∧ Node.indexMutStr (Node.Dictionary
            [("a", Node.Number (Numeric.Integer 1)),
             ("__comment_1", Node.Comment "x"),
             ("__comment_2", Node.Comment "y"),
             ("b", Node.Number (Numeric.Integer 2))]) "__comment_1" (Node.Str "z")
        = some (Node.Dictionary
            [("a", Node.Number (Numeric.Integer 1)),
             ("__comment_1", Node.Str "z"),
             ("__comment_2", Node.Comment "y"),
             ("b", Node.Number (Numeric.Integer 2))]) :=
  ⟨rfl, rfl, rfl⟩

/-- C10: a top-level sequence immediately followed by an alphanumeric
line is silently discarded: the input of a sequence item then a mapping
line parses to just the Dictionary with the single entry binding a to
the string b, with the already parsed Integer 1 absent, although the
sequence alone parses to the Array containing Integer 1. -/
theorem C10_sequence_discarded :
    parse (String.toList "- 1\na: b") = Except.ok (Node.Dictionary [("a", Node.Str "b")])
    ∧ parse (String.toList "- 1") = Except.ok (Node.Array [Node.Number (Numeric.Integer 1)]) :=
  ⟨rfl, rfl⟩

theorem length_drop_le (x : List Char) (n : Nat) : (x.drop n).length ≤ x.length := by
  rw [List.length_drop]; exact Nat.sub_le _ _

theorem length_tail_le (x : List Char) : x.tail.length ≤ x.length := by
  rw [List.length_tail]; exact Nat.sub_le _ _

theorem length_dropWhile_le (p : Char → Bool) (x : List Char) :
    (x.dropWhile p).length ≤ x.length :=
  (List.dropWhile_sublist p).length_le

theorem takeUntil_snd_length_le (p : Char → Bool) :
    ∀ l : List Char, (takeUntil p l).2.length ≤ l.length := by
  intro l
  induction l with
  | nil => simp [takeUntil]
  | cons c rest ih =>
    by_cases h : p c
    · simp [takeUntil, h]
    · simp only [takeUntil, h, Bool.false_eq_true, if_false, List.length_cons]
      exact Nat.le_trans ih (Nat.le_succ _)

theorem parse_sequenceF_snd_length_le :
    ∀ (fuel : Nat) (l : List Char), (parse_sequenceF fuel l).2.length ≤ l.length := by
  intro fuel
  induction fuel with
  | zero => intro l; simp [parse_sequenceF]
  | succ fuel ih =>
    intro l
    cases l with
    | nil => simp [parse_sequenceF]
    | cons c rest =>
      simp only [parse_sequenceF]
      split_ifs with h1 h2
      · exact le_trans (ih _) (le_trans (length_drop_le _ _)
          (le_trans (takeUntil_snd_length_le _ _) (by simp)))
      · exact le_trans (ih _) (le_trans (length_drop_le _ _)
          (le_trans (takeUntil_snd_length_le _ _)
            (le_trans (length_dropWhile_le _ _) (by simp))))
      · simp

theorem parse_sequence_dash_snd_length_le :
    ∀ rest : List Char, (parse_sequence ('-' :: rest)).2.length ≤ rest.length := by
  intro rest
  show (parse_sequenceF (('-' :: rest).length + 1) ('-' :: rest)).2.length ≤ rest.length
  simp only [List.length_cons, parse_sequenceF]
  split_ifs with h1
  · exact absurd h1 (by decide)
  · exact le_trans (parse_sequenceF_snd_length_le _ _) (le_trans (length_drop_le _ _)
      (le_trans (takeUntil_snd_length_le _ _) (length_dropWhile_le _ _)))

theorem parse_mappingF_fuel_congr :
    ∀ (fuel fuel2 : Nat) (l : List Char) (m : List (String × Node)),
      l.length < fuel → l.length < fuel2 →
      parse_mappingF fuel l m = parse_mappingF fuel2 l m := by
  intro fuel
  induction fuel with
  | zero => intro fuel2 l m h1 _; exact absurd h1 (Nat.not_lt_zero _)
  | succ fuel ih =>
    intro fuel2 l m h1 h2
    cases l with
    | nil =>
      cases fuel2 with
      | zero => exact absurd h2 (Nat.not_lt_zero _)
      | succ f2 => rfl
    | cons c rest =>
      cases fuel2 with
      | zero => exact absurd h2 (Nat.not_lt_zero _)
      | succ f2 =>
        have hrest : rest.length < fuel := Nat.lt_of_succ_lt_succ h1
        have hrest2 : rest.length < f2 := Nat.lt_of_succ_lt_succ h2
        have hb1 : ((takeUntil (fun d => decide (d = '\n')) rest).2.drop 1).length
            ≤ rest.length :=
          le_trans (length_drop_le _ _) (takeUntil_snd_length_le _ _)
        have hk : ((takeUntil (fun d => decide (d = ':')) (c :: rest)).2.drop 1).length
            ≤ rest.length := by
          have h4 := takeUntil_snd_length_le (fun d => decide (d = ':')) (c :: rest)
          rw [List.length_drop]
          simp only [List.length_cons] at h4
          omega
        have hb2 : ((takeUntil (fun d => decide (d = '\n' ∨ d = '#'))
            (((takeUntil (fun d => decide (d = ':')) (c :: rest)).2.drop 1).dropWhile
              rustIsWhitespace)).2.drop 1).length ≤ rest.length :=
          le_trans (length_drop_le _ _) (le_trans (takeUntil_snd_length_le _ _)
            (le_trans (length_dropWhile_le _ _) hk))
        simp only [parse_mappingF]
        split_ifs with hc ha
        · exact ih _ _ _ (Nat.lt_of_le_of_lt hb1 hrest) (Nat.lt_of_le_of_lt hb1 hrest2)
        · exact ih _ _ _ (Nat.lt_of_le_of_lt hb2 hrest) (Nat.lt_of_le_of_lt hb2 hrest2)
        · exact ih _ _ _ hrest hrest2

theorem parse_loopF_fuel_congr :
    ∀ (fuel fuel2 : Nat) (l : List Char) (docs : List Node) (cur : Option Node),
      l.length < fuel → l.length < fuel2 →
      parse_loopF fuel l docs cur = parse_loopF fuel2 l docs cur := by
  intro fuel
  induction fuel with
  | zero => intro fuel2 l docs cur h1 _; exact absurd h1 (Nat.not_lt_zero _)
  | succ fuel ih =>
    intro fuel2 l docs cur h1 h2
    cases l with
    | nil =>
      cases fuel2 with
      | zero => exact absurd h2 (Nat.not_lt_zero _)
      | succ f2 => rfl
    | cons c rest =>
      cases fuel2 with
      | zero => exact absurd h2 (Nat.not_lt_zero _)
      | succ f2 =>
        have hrest : rest.length < fuel := Nat.lt_of_succ_lt_succ h1
        have hrest2 : rest.length < f2 := Nat.lt_of_succ_lt_succ h2
        have hdrop3 : ((c :: rest).drop 3).length ≤ rest.length := by
          rw [List.length_drop]
          simp only [List.length_cons]
          omega
        have hcomment : (takeUntil (fun d => decide (d = '\n')) rest).2.length
            ≤ rest.length := takeUntil_snd_length_le _ _
        simp only [parse_loopF]
        split_ifs with hc hh hd ha hw
        · have hseq : (parse_sequence (c :: rest)).2.length ≤ rest.length := by
            rw [hc.1]
            exact parse_sequence_dash_snd_length_le rest
          exact ih _ _ _ _ (Nat.lt_of_le_of_lt hseq hrest) (Nat.lt_of_le_of_lt hseq hrest2)
        · exact ih _ _ _ _ (Nat.lt_of_le_of_lt hcomment hrest)
            (Nat.lt_of_le_of_lt hcomment hrest2)
        · exact ih _ _ _ _ (Nat.lt_of_le_of_lt hdrop3 hrest) (Nat.lt_of_le_of_lt hdrop3 hrest2)
        · exact ih _ _ _ _ (Nat.lt_of_le_of_lt (Nat.zero_le _) hrest)
            (Nat.lt_of_le_of_lt (Nat.zero_le _) hrest2)
        · exact ih _ _ _ _ hrest hrest2
        · rfl

theorem parse_fuel_irrelevant :
    ∀ (l : List Char) (fuel : Nat), (l.dropWhile rustIsWhitespace).length < fuel →
      parse l = parse_loopF fuel (l.dropWhile rustIsWhitespace) [] none := by
  intro l fuel h
  simp only [parse]
  exact parse_loopF_fuel_congr _ _ _ _ _ (Nat.lt_succ_self _) h
